import Mathlib

/-!
Verification development for the grandma-cook recipe pipeline.

Shallow embedding of the repository's Python sources:
* `src/agents/card_maker.py` — the extraction + render stage
  (`CardMakerAgent.handle_recipe_processed`, `generate_recipe_card`);
  `src/tools/generate_card.py` duplicates the same extraction and layout
  code, so one embedding covers both copies.
* `src/agents/recorder.py` — the transcription stage
  (`RecorderAgent.react`, `RecorderAgent.transcribe_audio`).

Python strings are modelled as `List Char` (one element per code point,
matching Python's `len`/slicing semantics).  `str.strip` is modelled with
`Char.isWhitespace`, and the regex classes `\d`/`\s` with `Char.isDigit` /
`Char.isWhitespace`; the inputs the pipeline handles never exercise the
exotic Unicode corners where these differ from Python's classes.
External collaborators (HTTP fetch, Whisper transcription, the artifact
store and messaging mods, PIL/qrcode) are modelled as oracles in an `Env`
record, and the observable downstream actions of a handler as a `List
Effect`; raised exceptions are modelled by cutting the effect list at the
failing call, exactly as the surrounding `try/except` does.
-/

namespace GrandmaCook

abbrev Str := List Char

/-- Python `str.strip()`: drop whitespace from both ends. -/
def trimS (l : Str) : Str :=
  ((l.dropWhile Char.isWhitespace).reverse.dropWhile Char.isWhitespace).reverse

/-- Python `str.startswith(p)`. -/
def isPrefB : Str → Str → Bool
  | [], _ => true
  | _ :: _, [] => false
  | a :: as, b :: bs => a == b && isPrefB as bs

/-- Python `p in l` (substring containment). -/
def isSubB (p : Str) : Str → Bool
  | [] => p.isEmpty
  | c :: rest => isPrefB p (c :: rest) || isSubB p rest

/-- Python `content.split('\n')`. -/
def splitLines : Str → List Str
  | [] => [[]]
  | c :: cs =>
    if c = '\n' then [] :: splitLines cs
    else
      match splitLines cs with
      | l :: ls => (c :: l) :: ls
      | [] => [[c]]

/-- The ellipsis marker `"..."` appended by truncation. -/
def ellipsis : Str := ("...").data

/-- `if len(s) > limit: s = s[:limit] + "..."` -/
def truncAt (limit : Nat) (s : Str) : Str :=
  if limit < s.length then s.take limit ++ ellipsis else s

/-- `line.startswith('## 食材') or '## Ingredients' in line` -/
def isIngHeaderLine (line : Str) : Bool :=
  isPrefB (("## 食材").data) line || isSubB (("## Ingredients").data) line

/-- `line.startswith('## 制作步骤') or '## Instructions' in line` -/
def isInstrHeaderLine (line : Str) : Bool :=
  isPrefB (("## 制作步骤").data) line || isSubB (("## Instructions").data) line

def hashHash : Str := ("##").data

def hashSpace : Str := ("# ").data

def dashSpace : Str := ("- ").data

/-- `re.match(r'^\d+\.\s', line)`: one or more digits, a period, one
whitespace character. -/
def matchNumB (line : Str) : Bool :=
  let ds := line.takeWhile Char.isDigit
  match line.drop ds.length with
  | '.' :: c :: _ => !ds.isEmpty && c.isWhitespace
  | _ => false

/-- `re.sub(r'^\d+\.\s*', '', line).strip()`. -/
def stripNumB (line : Str) : Str :=
  let ds := line.takeWhile Char.isDigit
  if ds.isEmpty then trimS line
  else
    match line.drop ds.length with
    | '.' :: r => trimS (r.dropWhile Char.isWhitespace)
    | _ => trimS line

/-- `title = "未知菜谱"` — the extractor's default title. -/
def defaultTitle : Str := ("未知菜谱").data

/-- The title loop: first line whose stripped form starts with `"# "`
supplies the title (the loop `break`s there); otherwise the default. -/
def findTitle : List Str → Str
  | [] => defaultTitle
  | l :: ls =>
    if isPrefB hashSpace (trimS l) then trimS ((trimS l).drop 2)
    else findTitle ls

/-- The mutable scan variables of the extraction loop:
`ingredients_section`, `instructions_section`, `ingredients`,
`instructions_preview`. -/
structure ScanState where
  inIng : Bool
  inInstr : Bool
  ingredients : List Str
  instructions : List Str
deriving DecidableEq, Repr

def initState : ScanState :=
  { inIng := false, inInstr := false, ingredients := [], instructions := [] }

/-- `ingredients.append(line[2:].strip()`, truncated to 80`)`. -/
def captureIng (s : ScanState) (line : Str) : ScanState :=
  { s with ingredients := s.ingredients ++ [truncAt 80 (trimS (line.drop 2))] }

/-- The instruction-extraction block at the bottom of the loop body:
`if instructions_section and re.match(r'^\d+\.\s', line) and
len(instructions_preview) < 3`. -/
def stepInstr (s : ScanState) (line : Str) : ScanState :=
  if s.inInstr = true ∧ matchNumB line = true ∧ s.instructions.length < 3 then
    { s with instructions := s.instructions ++ [truncAt 60 (stripNumB line)] }
  else s

/-- The ingredient block followed by the instruction block, i.e. the part
of the loop body after the header checks.  The `Bool` result is `true`
exactly when the `break` on reaching 5 ingredients fires (in which case
the instruction block of that iteration is skipped). -/
def afterHeaderStep (s1 : ScanState) (line : Str) : ScanState × Bool :=
  if s1.inIng = true ∧ isPrefB dashSpace line = true then
    if 5 ≤ (captureIng s1 line).ingredients.length then (captureIng s1 line, true)
    else (stepInstr (captureIng s1 line) line, false)
  else (stepInstr s1 line, false)

/-- One iteration of the extraction loop on a raw line: strip, header
checks (with `continue`), `##` reset, then ingredient/instruction blocks. -/
def processLine (s : ScanState) (raw : Str) : ScanState × Bool :=
  if isIngHeaderLine (trimS raw) then ({ s with inIng := true, inInstr := false }, false)
  else if isInstrHeaderLine (trimS raw) then ({ s with inIng := false, inInstr := true }, false)
  else if isPrefB hashHash (trimS raw) then
    afterHeaderStep { s with inIng := false, inInstr := false } (trimS raw)
  else afterHeaderStep s (trimS raw)

/-- The extraction loop over all lines; the `Bool` reports whether the
loop was left through the 5-ingredient `break`. -/
def scanGoB : ScanState → List Str → ScanState × Bool
  | s, [] => (s, false)
  | s, raw :: rest =>
    if (processLine s raw).2 then ((processLine s raw).1, true)
    else scanGoB (processLine s raw).1 rest

def scanGo (s : ScanState) (ls : List Str) : ScanState := (scanGoB s ls).1

/-- The structured result of parsing: `title`, `ingredients`,
`instructions_preview`. -/
structure RecipeSummary where
  title : Str
  ingredients : List Str
  instructionsPreview : List Str
deriving DecidableEq, Repr

/-- The extractor of `generate_recipe_card` (identical in
`src/agents/card_maker.py` and `src/tools/generate_card.py`):
`lines = markdown_content.split('\n')`, the title loop, then the
section-tracking scan loop. -/
def extract (md : Str) : RecipeSummary :=
  { title := findTitle (splitLines md)
    ingredients := (scanGo initState (splitLines md)).ingredients
    instructionsPreview := (scanGo initState (splitLines md)).instructions }

/-! ### Card layout (`generate_recipe_card`, drawing section)

`card_width, card_height = 600, 800`; the QR image is resized to
`(100, 100)` and pasted at `(card_width - 130, card_height - 130)`;
its caption is drawn 30 units above.  PIL drawing and PNG encoding are
external; the byte content of the card is abstracted as the ordered list
of draw operations that determines it. -/

def cardWidth : Nat := 600

def cardHeight : Nat := 800

def qrSize : Nat := 100

/-- `qr_x = card_width - 130`, `qr_y = card_height - 130`. -/
def qrPos : Nat × Nat := (cardWidth - 130, cardHeight - 130)

/-- `qr_url = f"http://localhost:8700/recipes/{recipe_id}"`. -/
def qrUrl (rid : Str) : Str := ("http://localhost:8700/recipes/").data ++ rid

/-- The deployment base URL hard-coded in the source. -/
def baseUrl : Str := ("http://localhost:8700").data

inductive DrawOp where
  | text (x y : Nat) (content : Str)
  | paste (x y w h : Nat) (encodedUrl : Str)
deriving DecidableEq, Repr

/-- The drawing sequence of `generate_recipe_card`: title, ingredients
header, ingredient lines, instructions header, instruction lines, QR
paste, QR caption — with the coordinates computed as in the source. -/
def renderOps (sum : RecipeSummary) (rid : Str) : List DrawOp :=
  [DrawOp.text 30 40 sum.title,
   DrawOp.text 30 (40 + 70) (("食材:").data)]
  ++ (sum.ingredients.mapIdx fun i ing =>
        DrawOp.text 40 ((40 + 70 + 40) + i * 30) ((("• ").data ++ ing)))
  ++ [DrawOp.text 30 ((40 + 70 + 40) + sum.ingredients.length * 30 + 30) (("制作步骤预览:").data)]
  ++ (sum.instructionsPreview.mapIdx fun i ins =>
        DrawOp.text 40 (((40 + 70 + 40) + sum.ingredients.length * 30 + 30 + 40) + i * 25)
          (((toString (i + 1)).data ++ (". ").data ++ ins)))
  ++ [DrawOp.paste qrPos.1 qrPos.2 qrSize qrSize (qrUrl rid),
      DrawOp.text qrPos.1 (qrPos.2 - 30) (("扫描获取完整菜谱").data)]

/-! ### Pipeline events and effects

`PipelineEvent` payloads are string-to-string mappings here (the payloads
the handlers read are strings; the float `confidence: 0.9` constant is
recorded by its literal).  `Env` packages the external collaborators:
mod-adapter availability, the artifact store's `put` outcome, the HTTP
fetch status per URL, and the transcription collaborator. -/

structure Event where
  name : Str
  source_id : Str
  payload : List (Str × Str)
deriving DecidableEq, Repr

def payloadGetD (ev : Event) (k d : Str) : Str :=
  ((ev.payload.lookup k).getD d)

inductive Effect where
  | fetched (url : Str)
  | transcribeCalled (url : Str)
  | stored (key : Str) (ops : List DrawOp)
  | channelMessage (channel text : Str)
  | published (name : Str) (payload : List (Str × Str))
deriving DecidableEq, Repr

structure Env where
  artifactAvailable : Bool
  putOk : Bool
  messagingAvailable : Bool
  transcribeOk : Bool
  fetchStatus : Str → Nat
  transcript : Str → Str

/-- An environment in which every external collaborator succeeds. -/
def envAll : Env :=
  { artifactAvailable := true, putOk := true, messagingAvailable := true,
    transcribeOk := true, fetchStatus := fun _ => 200,
    transcript := fun _ => ("text").data }

/-- An environment whose HTTP fetches all fail with status 404. -/
def envFetchFail : Env := { envAll with fetchStatus := fun _ => 404 }

/-! ### Card-maker stage (`src/agents/card_maker.py`) -/

def cardMakerId : Str := ("card-maker").data

def evMdProcessed : Str := ("recipe.md.processed").data

def evCardGenerated : Str := ("recipe.card.generated").data

def kContent : Str := ("content").data

def kRecipeId : Str := ("recipe_id").data

def kCardUrl : Str := ("card_url").data

def defaultRid : Str := ("default").data

/-- `f"recipe_card_{recipe_id}.png"`. -/
def cardKey (rid : Str) : Str := ("recipe_card_").data ++ rid ++ (".png").data

/-- `f"http://localhost:8700/artifacts/download/recipe_card_{recipe_id}.png"`. -/
def downloadUrl (rid : Str) : Str :=
  ("http://localhost:8700/artifacts/download/recipe_card_").data ++ rid ++ (".png").data

/-- `f"🎉 菜谱卡片已生成！下载您的带二维码的卡片: {download_url}"`. -/
def cardChannelMsg (rid : Str) : Str :=
  ("🎉 菜谱卡片已生成！下载您的带二维码的卡片: ").data ++ downloadUrl rid

/-- Downstream effects of `generate_recipe_card`: extraction and drawing
are pure; then artifact lookup, `artifact.put`, messaging lookup, channel
message, and the completion event, in source order.  A missing mod or a
failing `put` (exception, caught by the surrounding `try`) cuts the
sequence at that point. -/
def generateCardEffects (env : Env) (content rid : Str) : List Effect :=
  if env.artifactAvailable then
    if env.putOk then
      Effect.stored (cardKey rid) (renderOps (extract content) rid) ::
        (if env.messagingAvailable then
          [Effect.channelMessage (("recipe-cards").data) (cardChannelMsg rid),
           Effect.published evCardGenerated
             [(kRecipeId, rid), (kCardUrl, downloadUrl rid)]]
         else [])
    else []
  else []

/-- `payload.get("recipe_id", "default")`. -/
def recipeIdOf (ev : Event) : Str := payloadGetD ev kRecipeId defaultRid

/-- `CardMakerAgent.handle_recipe_processed` (the `@on_event
('recipe.md.processed')` handler): reads `content` and `recipe_id` with
defaults and, when `content` is truthy, runs `generate_recipe_card`.
Note: unlike `react`, this handler performs no `source_id` check. -/
def handleRecipeProcessed (env : Env) (ev : Event) : List Effect :=
  if payloadGetD ev kContent [] = [] then []
  else generateCardEffects env (payloadGetD ev kContent []) (recipeIdOf ev)

/-- `CardMakerAgent.react`: skips its own events, otherwise only prints —
no downstream effect either way. -/
def cardMakerReact (ev : Event) : List Effect :=
  if ev.source_id = cardMakerId then [] else []

/-! ### Transcription stage (`src/agents/recorder.py`) -/

def recorderId : Str := ("recorder").data

def evAudioNew : Str := ("recipe.audio.new").data

def evRecipeText : Str := ("recipe.text").data

def kAudioUrl : Str := ("audio_url").data

def kFilename : Str := ("filename").data

def kConfidence : Str := ("confidence").data

/-- `f"新菜谱已转录完成: {transcript}"`. -/
def transcribedMsg (t : Str) : Str := ("新菜谱已转录完成: ").data ++ t

/-- `RecorderAgent.transcribe_audio`: one `requests.get` on the audio
URL; on a non-200 status, print and `return` (no retry, no further
action).  On 200: temp-file bookkeeping (local, unobservable), the
Whisper call (an exception there is caught with no further effect), then
the channel message and the `recipe.text` event when the messaging mod is
available. -/
def transcribeAudioEffects (env : Env) (url rid : Str) : List Effect :=
  if env.fetchStatus url = 200 then
    if env.transcribeOk then
      Effect.fetched url :: Effect.transcribeCalled url ::
        (if env.messagingAvailable then
          [Effect.channelMessage (("recipe-uploads").data)
             (transcribedMsg (env.transcript url)),
           Effect.published evRecipeText
             [(kContent, env.transcript url), (kRecipeId, rid),
              (kConfidence, ("0.9").data)]]
         else [])
    else [Effect.fetched url, Effect.transcribeCalled url]
  else [Effect.fetched url]

/-- `RecorderAgent.react`: skip own events; on `recipe.audio.new` with a
truthy `audio_url`, transcribe. -/
def recorderReact (env : Env) (ev : Event) : List Effect :=
  if ev.source_id = recorderId then []
  else if ev.name = evAudioNew then
    if payloadGetD ev kAudioUrl [] = [] then []
    else transcribeAudioEffects env (payloadGetD ev kAudioUrl []) (recipeIdOf ev)
  else []

/-- The recorder stage run over a stream of events: each event is handled
independently (the handler keeps no state across events). -/
def recorderProcess (env : Env) : List Event → List Effect
  | [] => []
  | ev :: rest => recorderReact env ev ++ recorderProcess env rest

/-! ### Section-span predicates (for the extractor invariants) -/

/-- No line of `mid` (stripped) starts with `##`. -/
def noReset (mid : List Str) : Prop :=
  ∀ m ∈ mid, isPrefB hashHash (trimS m) = false

/-- `x` was captured from a `"- "` bullet line that lies strictly after a
recognized ingredients header with no `##`-starting line in between. -/
def fromIngSpan (lines : List Str) (x : Str) : Prop :=
  ∃ pre h mid l post,
    lines = pre ++ h :: (mid ++ l :: post) ∧
    isIngHeaderLine (trimS h) = true ∧ noReset mid ∧
    isPrefB dashSpace (trimS l) = true ∧
    x = truncAt 80 (trimS ((trimS l).drop 2))

/-- `y` was captured from a numbered line that lies strictly after a
recognized instructions header with no `##`-starting line in between. -/
def fromInstrSpan (lines : List Str) (y : Str) : Prop :=
  ∃ pre h mid l post,
    lines = pre ++ h :: (mid ++ l :: post) ∧
    isInstrHeaderLine (trimS h) = true ∧ noReset mid ∧
    matchNumB (trimS l) = true ∧
    y = truncAt 60 (stripNumB (trimS l))

/-- The scan state after processing `done`: a set flag witnesses a live
section span, and every captured string came from inside its span. -/
def inIngOK (done : List Str) : Prop :=
  ∃ pre h mid, done = pre ++ h :: mid ∧ isIngHeaderLine (trimS h) = true ∧ noReset mid

def inInstrOK (done : List Str) : Prop :=
  ∃ pre h mid, done = pre ++ h :: mid ∧ isInstrHeaderLine (trimS h) = true ∧ noReset mid

def Inv (done : List Str) (s : ScanState) : Prop :=
  (∀ x ∈ s.ingredients, fromIngSpan done x) ∧
  (∀ y ∈ s.instructions, fromInstrSpan done y) ∧
  (s.inIng = true → inIngOK done) ∧
  (s.inInstr = true → inInstrOK done)

/-! ## Lemmas about the extractor -/

theorem findTitle_default (ls : List Str)
    (h : ∀ l ∈ ls, isPrefB hashSpace (trimS l) = false) :
    findTitle ls = defaultTitle := by
  induction ls with
  | nil => rfl
  | cons l ls ih =>
    have hl := h l (List.mem_cons_self l ls)
    rw [findTitle, if_neg (by simp [hl])]
    exact ih fun m hm => h m (List.mem_cons_of_mem l hm)

theorem stepInstr_ingredients (s : ScanState) (line : Str) :
    (stepInstr s line).ingredients = s.ingredients := by
  unfold stepInstr; split <;> rfl

theorem stepInstr_len (s : ScanState) (line : Str)
    (h : s.instructions.length ≤ 3) :
    (stepInstr s line).instructions.length ≤ 3 := by
  unfold stepInstr
  split
  case isTrue hc => simp only [List.length_append, List.length_singleton]; omega
  case isFalse => exact h

theorem afterHeaderStep_len (s : ScanState) (line : Str)
    (hi : s.ingredients.length ≤ 4) (hj : s.instructions.length ≤ 3) :
    ((afterHeaderStep s line).2 = true → (afterHeaderStep s line).1.ingredients.length ≤ 5) ∧
    ((afterHeaderStep s line).2 = false → (afterHeaderStep s line).1.ingredients.length ≤ 4) ∧
    (afterHeaderStep s line).1.instructions.length ≤ 3 := by
  unfold afterHeaderStep
  by_cases hc : s.inIng = true ∧ isPrefB dashSpace line = true
  · rw [if_pos hc]
    by_cases hfive : 5 ≤ (captureIng s line).ingredients.length
    · rw [if_pos hfive]
      refine ⟨fun _ => ?_, fun hcontra => by simp at hcontra, hj⟩
      simp only [captureIng, List.length_append, List.length_singleton]
      omega
    · rw [if_neg hfive]
      refine ⟨fun hcontra => by simp at hcontra, fun _ => ?_, stepInstr_len _ _ hj⟩
      rw [stepInstr_ingredients]
      simp only [captureIng, List.length_append, List.length_singleton] at hfive ⊢
      omega
  · rw [if_neg hc]
    refine ⟨fun hcontra => by simp at hcontra, fun _ => ?_, stepInstr_len _ _ hj⟩
    rw [stepInstr_ingredients]
    exact hi

theorem processLine_len (s : ScanState) (raw : Str)
    (hi : s.ingredients.length ≤ 4) (hj : s.instructions.length ≤ 3) :
    ((processLine s raw).2 = true → (processLine s raw).1.ingredients.length ≤ 5) ∧
    ((processLine s raw).2 = false → (processLine s raw).1.ingredients.length ≤ 4) ∧
    (processLine s raw).1.instructions.length ≤ 3 := by
  unfold processLine
  by_cases h1 : isIngHeaderLine (trimS raw) = true
  · rw [if_pos h1]
    exact ⟨fun hcontra => by simp at hcontra, fun _ => hi, hj⟩
  · rw [if_neg h1]
    by_cases h2 : isInstrHeaderLine (trimS raw) = true
    · rw [if_pos h2]
      exact ⟨fun hcontra => by simp at hcontra, fun _ => hi, hj⟩
    · rw [if_neg h2]
      by_cases h3 : isPrefB hashHash (trimS raw) = true
      · rw [if_pos h3]
        exact afterHeaderStep_len _ _ hi hj
      · rw [if_neg h3]
        exact afterHeaderStep_len _ _ hi hj

theorem scanGoB_len (ls : List Str) : ∀ s : ScanState,
    s.ingredients.length ≤ 4 → s.instructions.length ≤ 3 →
    (scanGoB s ls).1.ingredients.length ≤ 5 ∧
    (scanGoB s ls).1.instructions.length ≤ 3 := by
  induction ls with
  | nil => intro s hi hj; exact ⟨Nat.le_succ_of_le hi, hj⟩
  | cons raw rest ih =>
    intro s hi hj
    have hp := processLine_len s raw hi hj
    cases h2 : (processLine s raw).2 with
    | true =>
      have : scanGoB s (raw :: rest) = ((processLine s raw).1, true) := by
        simp [scanGoB, h2]
      rw [this]
      exact ⟨hp.1 h2, hp.2.2⟩
    | false =>
      have : scanGoB s (raw :: rest) = scanGoB (processLine s raw).1 rest := by
        simp [scanGoB, h2]
      rw [this]
      exact ih _ (hp.2.1 h2) hp.2.2

theorem scanGoB_break_append (A : List Str) : ∀ (B : List Str) (s s' : ScanState),
    scanGoB s A = (s', true) → scanGoB s (A ++ B) = (s', true) := by
  induction A with
  | nil =>
    intro B s s' h
    simp only [scanGoB] at h
    exact absurd (congrArg Prod.snd h) (by simp)
  | cons raw rest ih =>
    intro B s s' h
    cases h2 : (processLine s raw).2 with
    | true =>
      have hform : scanGoB s (raw :: rest) = ((processLine s raw).1, true) := by
        simp [scanGoB, h2]
      rw [hform] at h
      have : scanGoB s ((raw :: rest) ++ B) = ((processLine s raw).1, true) := by
        simp [scanGoB, h2]
      rw [this, h]
    | false =>
      have hform : scanGoB s (raw :: rest) = scanGoB (processLine s raw).1 rest := by
        simp [scanGoB, h2]
      rw [hform] at h
      have : scanGoB s ((raw :: rest) ++ B) = scanGoB (processLine s raw).1 (rest ++ B) := by
        simp [scanGoB, h2]
      rw [this]
      exact ih B _ s' h

theorem afterHeaderStep_break (s : ScanState) (line : Str)
    (h : (afterHeaderStep s line).2 = true) :
    5 ≤ (afterHeaderStep s line).1.ingredients.length := by
  unfold afterHeaderStep at h ⊢
  by_cases hc : s.inIng = true ∧ isPrefB dashSpace line = true
  · rw [if_pos hc] at h ⊢
    by_cases hfive : 5 ≤ (captureIng s line).ingredients.length
    · rw [if_pos hfive]
      exact hfive
    · rw [if_neg hfive] at h
      simp at h
  · rw [if_neg hc] at h
    simp at h

theorem processLine_break (s : ScanState) (raw : Str)
    (h : (processLine s raw).2 = true) :
    5 ≤ (processLine s raw).1.ingredients.length := by
  unfold processLine at h ⊢
  by_cases h1 : isIngHeaderLine (trimS raw) = true
  · rw [if_pos h1] at h
    simp at h
  · rw [if_neg h1] at h ⊢
    by_cases h2 : isInstrHeaderLine (trimS raw) = true
    · rw [if_pos h2] at h
      simp at h
    · rw [if_neg h2] at h ⊢
      by_cases h3 : isPrefB hashHash (trimS raw) = true
      · rw [if_pos h3] at h ⊢
        exact afterHeaderStep_break _ _ h
      · rw [if_neg h3] at h ⊢
        exact afterHeaderStep_break _ _ h

theorem scanGoB_break_count (A : List Str) : ∀ (s s' : ScanState),
    scanGoB s A = (s', true) → 5 ≤ s'.ingredients.length := by
  induction A with
  | nil =>
    intro s s' h
    simp only [scanGoB] at h
    exact absurd (congrArg Prod.snd h) (by simp)
  | cons raw rest ih =>
    intro s s' h
    cases h2 : (processLine s raw).2 with
    | true =>
      have hform : scanGoB s (raw :: rest) = ((processLine s raw).1, true) := by
        simp [scanGoB, h2]
      rw [hform] at h
      have := processLine_break s raw h2
      rw [show (processLine s raw).1 = s' from congrArg Prod.fst h] at this
      exact this
    | false =>
      have hform : scanGoB s (raw :: rest) = scanGoB (processLine s raw).1 rest := by
        simp [scanGoB, h2]
      rw [hform] at h
      exact ih _ s' h

/-! ## Section-span invariant of the scan loop -/

theorem noReset_nil : noReset [] := fun m hm => absurd hm (List.not_mem_nil m)

theorem noReset_snoc {mid : List Str} {raw : Str} (h : noReset mid)
    (hr : isPrefB hashHash (trimS raw) = false) : noReset (mid ++ [raw]) := by
  intro m hm
  rcases List.mem_append.mp hm with h1 | h2
  · exact h m h1
  · rw [List.mem_singleton.mp h2]
    exact hr

theorem fromIngSpan_mono (lines ext : List Str) (x : Str)
    (h : fromIngSpan lines x) : fromIngSpan (lines ++ ext) x := by
  obtain ⟨pre, hh, mid, l, post, heq, h1, h2, h3, h4⟩ := h
  exact ⟨pre, hh, mid, l, post ++ ext, by subst heq; simp, h1, h2, h3, h4⟩

theorem fromInstrSpan_mono (lines ext : List Str) (y : Str)
    (h : fromInstrSpan lines y) : fromInstrSpan (lines ++ ext) y := by
  obtain ⟨pre, hh, mid, l, post, heq, h1, h2, h3, h4⟩ := h
  exact ⟨pre, hh, mid, l, post ++ ext, by subst heq; simp, h1, h2, h3, h4⟩

theorem inIngOK_snoc {done : List Str} {raw : Str} (h : inIngOK done)
    (hr : isPrefB hashHash (trimS raw) = false) : inIngOK (done ++ [raw]) := by
  obtain ⟨pre, hh, mid, heq, h1, h2⟩ := h
  exact ⟨pre, hh, mid ++ [raw], by subst heq; simp, h1, noReset_snoc h2 hr⟩

theorem inInstrOK_snoc {done : List Str} {raw : Str} (h : inInstrOK done)
    (hr : isPrefB hashHash (trimS raw) = false) : inInstrOK (done ++ [raw]) := by
  obtain ⟨pre, hh, mid, heq, h1, h2⟩ := h
  exact ⟨pre, hh, mid ++ [raw], by subst heq; simp, h1, noReset_snoc h2 hr⟩

theorem inIngOK_capture {done : List Str} {raw : Str} (h : inIngOK done)
    (hd : isPrefB dashSpace (trimS raw) = true) :
    fromIngSpan (done ++ [raw]) (truncAt 80 (trimS ((trimS raw).drop 2))) := by
  obtain ⟨pre, hh, mid, heq, h1, h2⟩ := h
  exact ⟨pre, hh, mid, raw, [], by subst heq; simp, h1, h2, hd, rfl⟩

theorem inInstrOK_capture {done : List Str} {raw : Str} (h : inInstrOK done)
    (hm : matchNumB (trimS raw) = true) :
    fromInstrSpan (done ++ [raw]) (truncAt 60 (stripNumB (trimS raw))) := by
  obtain ⟨pre, hh, mid, heq, h1, h2⟩ := h
  exact ⟨pre, hh, mid, raw, [], by subst heq; simp, h1, h2, hm, rfl⟩

theorem stepInstr_inv (done : List Str) (s : ScanState) (raw : Str)
    (hx : ∀ x ∈ s.ingredients, fromIngSpan (done ++ [raw]) x)
    (hy : ∀ y ∈ s.instructions, fromInstrSpan (done ++ [raw]) y)
    (hfi : s.inIng = true → inIngOK (done ++ [raw]))
    (hfj : s.inInstr = true → inInstrOK (done ++ [raw]))
    (hok : s.inInstr = true → inInstrOK done) :
    Inv (done ++ [raw]) (stepInstr s (trimS raw)) := by
  unfold stepInstr
  by_cases hc : s.inInstr = true ∧ matchNumB (trimS raw) = true ∧ s.instructions.length < 3
  · rw [if_pos hc]
    refine ⟨hx, ?_, hfi, hfj⟩
    intro y hym
    rcases List.mem_append.mp hym with h1 | h2
    · exact hy y h1
    · rw [List.mem_singleton.mp h2]
      exact inInstrOK_capture (hok hc.1) hc.2.1
  · rw [if_neg hc]
    exact ⟨hx, hy, hfi, hfj⟩

theorem afterHeaderStep_reset (s : ScanState) (line : Str)
    (hi : s.inIng = false) (hj : s.inInstr = false) :
    afterHeaderStep s line = (s, false) := by
  unfold afterHeaderStep stepInstr
  rw [if_neg (by simp [hi]), if_neg (by simp [hj])]

theorem afterHeaderStep_inv (done : List Str) (s : ScanState) (raw : Str)
    (hx : ∀ x ∈ s.ingredients, fromIngSpan done x)
    (hy : ∀ y ∈ s.instructions, fromInstrSpan done y)
    (hoki : s.inIng = true → inIngOK done)
    (hokj : s.inInstr = true → inInstrOK done)
    (hr : isPrefB hashHash (trimS raw) = false) :
    Inv (done ++ [raw]) (afterHeaderStep s (trimS raw)).1 := by
  have hx' : ∀ x ∈ s.ingredients, fromIngSpan (done ++ [raw]) x :=
    fun x hxm => fromIngSpan_mono done [raw] x (hx x hxm)
  have hy' : ∀ y ∈ s.instructions, fromInstrSpan (done ++ [raw]) y :=
    fun y hym => fromInstrSpan_mono done [raw] y (hy y hym)
  have hfi : s.inIng = true → inIngOK (done ++ [raw]) :=
    fun h => inIngOK_snoc (hoki h) hr
  have hfj : s.inInstr = true → inInstrOK (done ++ [raw]) :=
    fun h => inInstrOK_snoc (hokj h) hr
  unfold afterHeaderStep
  by_cases hc : s.inIng = true ∧ isPrefB dashSpace (trimS raw) = true
  · rw [if_pos hc]
    have hcap : ∀ x ∈ (captureIng s (trimS raw)).ingredients,
        fromIngSpan (done ++ [raw]) x := by
      intro x hxm
      rcases List.mem_append.mp hxm with h1 | h2
      · exact hx' x h1
      · rw [List.mem_singleton.mp h2]
        exact inIngOK_capture (hoki hc.1) hc.2
    by_cases hfive : 5 ≤ (captureIng s (trimS raw)).ingredients.length
    · rw [if_pos hfive]
      exact ⟨hcap, hy', hfi, hfj⟩
    · rw [if_neg hfive]
      exact stepInstr_inv done (captureIng s (trimS raw)) raw hcap hy' hfi hfj hokj
  · rw [if_neg hc]
    exact stepInstr_inv done s raw hx' hy' hfi hfj hokj

theorem processLine_inv (done : List Str) (s : ScanState) (raw : Str)
    (hI : Inv done s) : Inv (done ++ [raw]) (processLine s raw).1 := by
  obtain ⟨hx, hy, hoki, hokj⟩ := hI
  have hx' : ∀ x ∈ s.ingredients, fromIngSpan (done ++ [raw]) x :=
    fun x hxm => fromIngSpan_mono done [raw] x (hx x hxm)
  have hy' : ∀ y ∈ s.instructions, fromInstrSpan (done ++ [raw]) y :=
    fun y hym => fromInstrSpan_mono done [raw] y (hy y hym)
  unfold processLine
  by_cases h1 : isIngHeaderLine (trimS raw) = true
  · rw [if_pos h1]
    exact ⟨hx', hy', fun _ => ⟨done, raw, [], rfl, h1, noReset_nil⟩,
      fun hcontra => by simp at hcontra⟩
  · rw [if_neg h1]
    by_cases h2 : isInstrHeaderLine (trimS raw) = true
    · rw [if_pos h2]
      exact ⟨hx', hy', fun hcontra => by simp at hcontra,
        fun _ => ⟨done, raw, [], rfl, h2, noReset_nil⟩⟩
    · rw [if_neg h2]
      by_cases h3 : isPrefB hashHash (trimS raw) = true
      · rw [if_pos h3, afterHeaderStep_reset _ _ rfl rfl]
        exact ⟨hx', hy', fun hcontra => by simp at hcontra,
          fun hcontra => by simp at hcontra⟩
      · rw [if_neg h3]
        have hr : isPrefB hashHash (trimS raw) = false := by
          simpa using h3
        exact afterHeaderStep_inv done s raw hx hy hoki hokj hr

theorem scanGoB_inv (ls : List Str) : ∀ (done : List Str) (s : ScanState), Inv done s →
    (∀ x ∈ (scanGoB s ls).1.ingredients, fromIngSpan (done ++ ls) x) ∧
    (∀ y ∈ (scanGoB s ls).1.instructions, fromInstrSpan (done ++ ls) y) := by
  induction ls with
  | nil =>
    intro done s h
    rw [List.append_nil]
    exact ⟨h.1, h.2.1⟩
  | cons raw rest ih =>
    intro done s h
    have hstep := processLine_inv done s raw h
    have hrw : done ++ raw :: rest = (done ++ [raw]) ++ rest := by simp
    cases h2 : (processLine s raw).2 with
    | true =>
      have hform : scanGoB s (raw :: rest) = ((processLine s raw).1, true) := by
        simp [scanGoB, h2]
      rw [hform, hrw]
      exact ⟨fun x hx => fromIngSpan_mono _ _ x (hstep.1 x hx),
             fun y hy => fromInstrSpan_mono _ _ y (hstep.2.1 y hy)⟩
    | false =>
      have hform : scanGoB s (raw :: rest) = scanGoB (processLine s raw).1 rest := by
        simp [scanGoB, h2]
      rw [hform, hrw]
      exact ih (done ++ [raw]) (processLine s raw).1 hstep

/-- Both span facts for the extractor's output, obtained from the scan
invariant at the initial state. -/
theorem extract_spans (md : Str) :
    (∀ x ∈ (extract md).ingredients, fromIngSpan (splitLines md) x) ∧
    (∀ y ∈ (extract md).instructionsPreview, fromInstrSpan (splitLines md) y) := by
  have hInv : Inv [] initState :=
    ⟨fun x hx => absurd hx (List.not_mem_nil x),
     fun y hy => absurd hy (List.not_mem_nil y),
     fun h => by simp [initState] at h,
     fun h => by simp [initState] at h⟩
  have hmain := scanGoB_inv (splitLines md) [] initState hInv
  rw [List.nil_append] at hmain
  exact hmain

/-! ## Truncation lemmas -/

theorem truncAt_long (n : Nat) (s : Str) (h : n < s.length) :
    (truncAt n s).length = n + ellipsis.length ∧ ellipsis <:+ truncAt n s := by
  unfold truncAt
  rw [if_pos h]
  constructor
  · rw [List.length_append, List.length_take, Nat.min_eq_left (Nat.le_of_lt h)]
  · exact List.suffix_append _ _

theorem truncAt_le (n : Nat) (s : Str) (h : s.length ≤ n) : truncAt n s = s := by
  unfold truncAt
  rw [if_neg (by omega)]

/-! ## Claim theorems: title default, length bounds, early break -/

/-- C1 (amended): for every markdown input with no line that, after
stripping, starts with `"# "`, the extractor keeps the default title —
which in the code is `"未知菜谱"`, not `"Untitled Recipe"`. -/
theorem extract_default_title (md : Str)
    (h : ∀ l ∈ splitLines md, isPrefB hashSpace (trimS l) = false) :
    (extract md).title = defaultTitle :=
  findTitle_default (splitLines md) h

/-- C1 counterexample: on an input with no heading the title is the
default `"未知菜谱"`, which differs from the claimed `"Untitled Recipe"`. -/
theorem extract_default_title_cex :
    ¬ ((extract (("hello").data)).title = ("Untitled Recipe").data) := by decide

theorem extract_default_title_w :
    (extract (("hello").data)).title = defaultTitle :=
  extract_default_title (("hello").data) (by decide)

/-- C4: for every markdown input the extractor returns at most 5
ingredients and at most 3 instruction-preview items. -/
theorem extract_length_bounds (md : Str) :
    (extract md).ingredients.length ≤ 5 ∧
    (extract md).instructionsPreview.length ≤ 3 :=
  scanGoB_len (splitLines md) initState (by simp [initState]) (by simp [initState])

/-- C3: once the scan loop leaves through the 5-ingredient `break`
(after some prefix `A` of the document's lines), the whole extraction
stops: the result over the full document equals the state at the break,
so instruction lines occurring in the remainder `B` are never captured. -/
theorem extract_break_truncates (md : Str) (A B : List Str) (s' : ScanState)
    (hsplit : splitLines md = A ++ B)
    (hbrk : scanGoB initState A = (s', true)) :
    (extract md).ingredients = s'.ingredients ∧
    (extract md).instructionsPreview = s'.instructions ∧
    5 ≤ s'.ingredients.length := by
  have h1 := scanGoB_break_append A B initState s' hbrk
  have h2 : scanGo initState (splitLines md) = s' := by
    rw [scanGo, hsplit, h1]
  exact ⟨congrArg ScanState.ingredients h2, congrArg ScanState.instructions h2,
    scanGoB_break_count A initState s' hbrk⟩

theorem extract_break_truncates_w :
    (extract (("## Ingredients\n- a\n- b\n- c\n- d\n- e\n## Instructions\n1. later").data)).ingredients
        = [[('a')], [('b')], [('c')], [('d')], [('e')]] ∧
    (extract (("## Ingredients\n- a\n- b\n- c\n- d\n- e\n## Instructions\n1. later").data)).instructionsPreview
        = [] ∧
    5 ≤ ([[('a')], [('b')], [('c')], [('d')], [('e')]] : List Str).length :=
  extract_break_truncates
    (("## Ingredients\n- a\n- b\n- c\n- d\n- e\n## Instructions\n1. later").data)
    [("## Ingredients").data, ("- a").data, ("- b").data, ("- c").data,
     ("- d").data, ("- e").data]
    [("## Instructions").data, ("1. later").data]
    { inIng := true, inInstr := false,
      ingredients := [[('a')], [('b')], [('c')], [('d')], [('e')]], instructions := [] }
    (by decide) (by decide)

/-- C5: every stored ingredient is the 80-truncation of its stripped
source text and every stored instruction the 60-truncation of its
stripped source text; when the source exceeds the limit the stored
string ends with the ellipsis marker and has length limit +
len(ellipsis), and otherwise it is stored unmodified. -/
theorem extract_truncation_law (md : Str) :
    (∀ x ∈ (extract md).ingredients, ∃ raw, x = truncAt 80 raw ∧
      (80 < raw.length → x.length = 80 + ellipsis.length ∧ ellipsis <:+ x) ∧
      (raw.length ≤ 80 → x = raw)) ∧
    (∀ y ∈ (extract md).instructionsPreview, ∃ raw, y = truncAt 60 raw ∧
      (60 < raw.length → y.length = 60 + ellipsis.length ∧ ellipsis <:+ y) ∧
      (raw.length ≤ 60 → y = raw)) := by
  obtain ⟨hing, hinstr⟩ := extract_spans md
  constructor
  · intro x hx
    obtain ⟨pre, hh, mid, l, post, _, _, _, _, hxeq⟩ := hing x hx
    refine ⟨trimS ((trimS l).drop 2), hxeq, fun hlong => ?_, fun hshort => ?_⟩
    · rw [hxeq]
      exact truncAt_long 80 _ hlong
    · rw [hxeq]
      exact truncAt_le 80 _ hshort
  · intro y hy
    obtain ⟨pre, hh, mid, l, post, _, _, _, _, hyeq⟩ := hinstr y hy
    refine ⟨stripNumB (trimS l), hyeq, fun hlong => ?_, fun hshort => ?_⟩
    · rw [hyeq]
      exact truncAt_long 60 _ hlong
    · rw [hyeq]
      exact truncAt_le 60 _ hshort

theorem extract_truncation_law_w :
    (∃ raw, truncAt 80 (List.replicate 85 ('a')) = truncAt 80 raw ∧
      (80 < raw.length →
        (truncAt 80 (List.replicate 85 ('a'))).length = 80 + ellipsis.length ∧
        ellipsis <:+ truncAt 80 (List.replicate 85 ('a'))) ∧
      (raw.length ≤ 80 → truncAt 80 (List.replicate 85 ('a')) = raw)) ∧
    (∃ raw, truncAt 60 (List.replicate 65 ('b')) = truncAt 60 raw ∧
      (60 < raw.length →
        (truncAt 60 (List.replicate 65 ('b'))).length = 60 + ellipsis.length ∧
        ellipsis <:+ truncAt 60 (List.replicate 65 ('b'))) ∧
      (raw.length ≤ 60 → truncAt 60 (List.replicate 65 ('b')) = raw)) :=
  ⟨(extract_truncation_law
      (("## Ingredients\n- ").data ++ List.replicate 85 ('a') ++
        ("\n## Instructions\n1. ").data ++ List.replicate 65 ('b'))).1
      (truncAt 80 (List.replicate 85 ('a'))) (by decide),
   (extract_truncation_law
      (("## Ingredients\n- ").data ++ List.replicate 85 ('a') ++
        ("\n## Instructions\n1. ").data ++ List.replicate 65 ('b'))).2
      (truncAt 60 (List.replicate 65 ('b'))) (by decide)⟩

/-- C6: every returned ingredient comes from a `"- "` bullet line lying
strictly after a recognized ingredients header with no `##`-starting line
in between (so inside that section's span, up to the next `##`-level
header or end of document); every instruction-preview item likewise comes
from a numbered line inside the instructions section's span; and any
non-header line starting with `##` resets both section flags. -/
theorem extract_section_span (md : Str) :
    (∀ x ∈ (extract md).ingredients, fromIngSpan (splitLines md) x) ∧
    (∀ y ∈ (extract md).instructionsPreview, fromInstrSpan (splitLines md) y) ∧
    (∀ (s : ScanState) (raw : Str),
      isIngHeaderLine (trimS raw) = false → isInstrHeaderLine (trimS raw) = false →
      isPrefB hashHash (trimS raw) = true →
      (processLine s raw).1.inIng = false ∧ (processLine s raw).1.inInstr = false) := by
  refine ⟨(extract_spans md).1, (extract_spans md).2, ?_⟩
  intro s raw h1 h2 h3
  unfold processLine
  rw [if_neg (by simp [h1]), if_neg (by simp [h2]), if_pos h3,
    afterHeaderStep_reset _ _ rfl rfl]
  exact ⟨rfl, rfl⟩

theorem extract_section_span_w :
    fromIngSpan
      (splitLines (("# Tomato Soup\n## Ingredients\n- Tomato\n- Salt\n## Instructions\n1. Chop\n2. Boil").data))
      (("Tomato").data) ∧
    fromInstrSpan
      (splitLines (("# Tomato Soup\n## Ingredients\n- Tomato\n- Salt\n## Instructions\n1. Chop\n2. Boil").data))
      (("Chop").data) ∧
    ((processLine initState (("## Other").data)).1.inIng = false ∧
     (processLine initState (("## Other").data)).1.inInstr = false) :=
  ⟨(extract_section_span
      (("# Tomato Soup\n## Ingredients\n- Tomato\n- Salt\n## Instructions\n1. Chop\n2. Boil").data)).1
      (("Tomato").data) (by decide),
   (extract_section_span
      (("# Tomato Soup\n## Ingredients\n- Tomato\n- Salt\n## Instructions\n1. Chop\n2. Boil").data)).2.1
      (("Chop").data) (by decide),
   (extract_section_span
      (("# Tomato Soup\n## Ingredients\n- Tomato\n- Salt\n## Instructions\n1. Chop\n2. Boil").data)).2.2
      initState (("## Other").data) (by decide) (by decide) (by decide)⟩

/-! ## Claim theorems: pipeline stages -/

/-- C7: the completion event `recipe.card.generated` is published only
when the artifact store was available and its `put` succeeded, and then
only strictly after the store effect for key `recipe_card_<rid>.png`; so
a failed or unavailable store means no completion event. -/
theorem card_store_before_publish (env : Env) (content rid : Str)
    (p : List (Str × Str))
    (h : Effect.published evCardGenerated p ∈ generateCardEffects env content rid) :
    env.artifactAvailable = true ∧ env.putOk = true ∧
    ∃ rest, generateCardEffects env content rid =
        Effect.stored (cardKey rid) (renderOps (extract content) rid) :: rest ∧
      Effect.published evCardGenerated p ∈ rest := by
  unfold generateCardEffects at h ⊢
  by_cases ha : env.artifactAvailable = true
  · rw [if_pos ha] at h ⊢
    by_cases hp : env.putOk = true
    · rw [if_pos hp] at h ⊢
      refine ⟨ha, hp, _, rfl, ?_⟩
      rcases List.mem_cons.mp h with h1 | h1
      · exact absurd h1 (by simp)
      · exact h1
    · rw [if_neg hp] at h
      exact absurd h (List.not_mem_nil _)
  · rw [if_neg ha] at h
    exact absurd h (List.not_mem_nil _)

theorem card_store_before_publish_w :
    envAll.artifactAvailable = true ∧ envAll.putOk = true ∧
    ∃ rest, generateCardEffects envAll (("# T").data) (("r").data) =
        Effect.stored (cardKey (("r").data))
          (renderOps (extract (("# T").data)) (("r").data)) :: rest ∧
      Effect.published evCardGenerated
        [(kRecipeId, ("r").data), (kCardUrl, downloadUrl (("r").data))] ∈ rest :=
  card_store_before_publish envAll (("# T").data) (("r").data)
    [(kRecipeId, ("r").data), (kCardUrl, downloadUrl (("r").data))] (by decide)

/-- C8: an `recipe.audio.new` event whose `audio_url` fetch returns a
non-200 status produces exactly one fetch attempt (no retry), no
transcription call and no published event, and leaves the processing of
all subsequent events unchanged. -/
theorem recorder_fetch_failure_local (env : Env) (ev : Event)
    (rest : List Event) (url : Str)
    (hname : ev.name = evAudioNew)
    (hsrc : ev.source_id ≠ recorderId)
    (hurl : payloadGetD ev kAudioUrl [] = url)
    (hne : url ≠ [])
    (hfetch : env.fetchStatus url ≠ 200) :
    recorderProcess env (ev :: rest) =
      Effect.fetched url :: recorderProcess env rest := by
  show recorderReact env ev ++ recorderProcess env rest = _
  unfold recorderReact
  rw [if_neg hsrc, if_pos hname, hurl, if_neg hne]
  unfold transcribeAudioEffects
  rw [if_neg hfetch]
  rfl

theorem recorder_fetch_failure_local_w :
    recorderProcess envFetchFail
        [{ name := evAudioNew, source_id := ("user").data,
           payload := [(kAudioUrl, ("http://x").data)] }] =
      Effect.fetched (("http://x").data) :: recorderProcess envFetchFail [] :=
  recorder_fetch_failure_local envFetchFail
    { name := evAudioNew, source_id := ("user").data,
      payload := [(kAudioUrl, ("http://x").data)] }
    [] (("http://x").data) rfl (by decide) (by decide) (by decide) (by decide)

/-- C2 (divergence witness): the card-maker's `recipe.md.processed`
handler performs downstream effects — including publishing the completion
event — even when the incoming event's `source_id` equals the stage's own
identity `card-maker`, because `handle_recipe_processed` never checks
`source_id` (only the generic `react` method does). -/
theorem card_maker_handler_ignores_self_source :
    ({ name := evMdProcessed, source_id := cardMakerId,
       payload := [(kContent, ("# T").data), (kRecipeId, ("r").data)] } : Event).source_id
        = cardMakerId ∧
    Effect.published evCardGenerated
        [(kRecipeId, ("r").data), (kCardUrl, downloadUrl (("r").data))] ∈
      handleRecipeProcessed envAll
        { name := evMdProcessed, source_id := cardMakerId,
          payload := [(kContent, ("# T").data), (kRecipeId, ("r").data)] } := by
  exact ⟨rfl, by decide⟩

/-- C10: a `recipe.md.processed` event with a missing `content` key or an
empty `content` string produces zero effects in the card-maker handler,
and a missing `recipe_id` key defaults to `"default"`. -/
theorem handler_empty_content_noop (env : Env) (ev : Event) :
    (payloadGetD ev kContent [] = [] → handleRecipeProcessed env ev = []) ∧
    (ev.payload.lookup kContent = none → handleRecipeProcessed env ev = []) ∧
    (ev.payload.lookup kRecipeId = none → recipeIdOf ev = defaultRid) := by
  refine ⟨?_, ?_, ?_⟩
  · intro h
    unfold handleRecipeProcessed
    rw [if_pos h]
  · intro h
    unfold handleRecipeProcessed
    rw [if_pos (by unfold payloadGetD; rw [h]; rfl)]
  · intro h
    unfold recipeIdOf payloadGetD
    rw [h]
    rfl

theorem handler_empty_content_noop_w :
    handleRecipeProcessed envAll
        { name := evMdProcessed, source_id := ("someone").data, payload := [] } = [] ∧
    recipeIdOf
        { name := evMdProcessed, source_id := ("someone").data, payload := [] }
      = defaultRid :=
  ⟨(handler_empty_content_noop envAll
      { name := evMdProcessed, source_id := ("someone").data, payload := [] }).1
      (by decide),
   (handler_empty_content_noop envAll
      { name := evMdProcessed, source_id := ("someone").data, payload := [] }).2.2
      (by decide)⟩

/-- C9 counterexample: the 100×100 code image pasted at
`(card_width - 130, card_height - 130)` sits 30 units from the right and
bottom edges, not 80 as claimed. -/
theorem qr_margin_cex :
    ¬ (cardWidth - (qrPos.1 + qrSize) = 80 ∧
       cardHeight - (qrPos.2 + qrSize) = 80) := by decide

/-- C9 (amended): the 100×100 scannable-code image encoding
`baseURL + "/recipes/" + recipeID` is pasted with its top-left corner 130
units in from the right and bottom edges of the 600×800 canvas — a
30-unit margin from each edge — and its caption is drawn 30 units above
it. -/
theorem qr_layout (sum : RecipeSummary) (rid : Str) :
    DrawOp.paste qrPos.1 qrPos.2 qrSize qrSize (qrUrl rid) ∈ renderOps sum rid ∧
    DrawOp.text qrPos.1 (qrPos.2 - 30) (("扫描获取完整菜谱").data) ∈ renderOps sum rid ∧
    qrSize = 100 ∧
    qrPos.1 = cardWidth - 130 ∧ qrPos.2 = cardHeight - 130 ∧
    cardWidth - (qrPos.1 + qrSize) = 30 ∧ cardHeight - (qrPos.2 + qrSize) = 30 ∧
    qrUrl rid = (baseUrl ++ ("/recipes/").data) ++ rid := by
  refine ⟨?_, ?_, rfl, rfl, rfl, rfl, rfl, ?_⟩
  · unfold renderOps
    simp [List.mem_append]
  · unfold renderOps
    simp [List.mem_append]
  · rw [show baseUrl ++ ("/recipes/").data = ("http://localhost:8700/recipes/").data
      by decide]
    rfl

end GrandmaCook
